import Mathlib

/-!
# Verification of the Pinot transform-expression evaluator

Shallow embedding of `src/pinot/tools/validate_transforms.py`: the
expression evaluator `eval_expr`, the argument splitter
`split_top_level_args`, quote stripping, the call-pattern regular
expression, JSON-path resolution `json_path_lookup`, and the slice of the
Python standard library the evaluator calls (`datetime.fromisoformat`,
`datetime.timestamp`, `int`).

Strings are modelled as `List Char`; a JSON document is the inductive
`Json`; Python's `None` is `Json.null` (the evaluator uses the same value
for "null result" and "failure").  The evaluator's recursion over
argument substrings is realized with a fuel parameter; the fuel
`expr.length + 1` is proved sufficient, which yields the total function
`eval_expr`.
-/

/-- Python `str.strip()` whitespace test, for the ASCII whitespace
characters (space, tab, newline, carriage return, vertical tab, form
feed).  The Python original also strips further Unicode whitespace, which
never occurs in the restricted expression language. -/
def isPySpace (c : Char) : Bool :=
  c = ' ' || c = '\t' || c = '\n' || c = '\r' || c = Char.ofNat 11 || c = Char.ofNat 12

/-- Python `s.strip()`: drop leading and trailing whitespace. -/
def pyStrip (l : List Char) : List Char :=
  ((l.dropWhile isPySpace).reverse.dropWhile isPySpace).reverse

/-- A character matched by the regex class `[a-zA-Z0-9_]` of `FUNC_RE`. -/
def isWordChar (c : Char) : Bool :=
  c.isAlpha || c.isDigit || c = '_'

/-- Python `s.split(c)` on a single separator character: every separator
splits, empty segments are kept, and the empty string yields one empty
segment. -/
def pySplit (c : Char) (l : List Char) : List (List Char) :=
  match l with
  | [] => [[]]
  | x :: xs =>
    match pySplit c xs with
    | [] => [[]]
    | h :: t => if x = c then [] :: h :: t else (x :: h) :: t

/-- The loop of `split_top_level_args`: `depth` counts parentheses, `cur`
is the pending segment, `acc` holds the finished arguments in reverse.
On a depth-0 comma the stripped pending segment is appended
unconditionally; at the end it is appended only when non-empty
(`if cur.strip():`). -/
def splitLoop : List Char → Int → List Char → List (List Char) → List (List Char)
  | [], _, cur, acc =>
    if pyStrip cur = [] then acc.reverse else (pyStrip cur :: acc).reverse
  | c :: rest, d, cur, acc =>
    if c = '(' then splitLoop rest (d + 1) (cur ++ [c]) acc
    else if c = ')' then splitLoop rest (d - 1) (cur ++ [c]) acc
    else if c = ',' ∧ d = 0 then splitLoop rest d [] (pyStrip cur :: acc)
    else splitLoop rest d (cur ++ [c]) acc

/-- `split_top_level_args(s)` from the source. -/
def split_top_level_args (s : List Char) : List (List Char) :=
  splitLoop s 0 [] []

/-- `strip_quotes(s)` from the source: strip whitespace, then remove one
pair of matching single or double quotes when the string both starts and
ends with that quote character. -/
def strip_quotes (s : List Char) : List Char :=
  let t := pyStrip s
  if (t.head? = some '\'' ∧ t.getLast? = some '\'') ∨
     (t.head? = some '"' ∧ t.getLast? = some '"') then
    (t.drop 1).dropLast
  else t

/-- `FUNC_RE.match(expr)` for the anchored regex
`^([a-zA-Z0-9_]+)\((.*)\)$`: the name group is the maximal leading run of
word characters, which must be non-empty and be followed by `(`; the
greedy `.*` makes the args group span up to the final character, which
must be `)`; `.` does not match a newline, so the args group must be free
of `'\n'`.  (The input is always a stripped string, so the `$`-matches-
before-trailing-newline case of Python regexes cannot arise.)  Returns
`some (name, args)` on a match. -/
def pyFuncMatch (s : List Char) : Option (List Char × List Char) :=
  let nm := s.takeWhile isWordChar
  let rest := s.dropWhile isWordChar
  if nm ≠ [] ∧ rest.head? = some '(' ∧ rest.getLast? = some ')' ∧ 2 ≤ rest.length ∧
      ((rest.drop 1).dropLast).all (fun ch => ch != '\n') then
    some (nm, (rest.drop 1).dropLast)
  else none

/-- Value of a list of decimal digits. -/
def digitsToNat (l : List Char) : Nat :=
  l.foldl (fun acc c => acc * 10 + (c.toNat - 48)) 0

/-- Single underscores are allowed between digits by Python's `int()`
(e.g. `1_000`); a doubled underscore is rejected. -/
def noDoubledUnderscore : List Char → Bool
  | '_' :: '_' :: _ => false
  | _ :: rest => noDoubledUnderscore rest
  | [] => true

/-- Shape check for the body of a Python integer literal (after the
optional sign): non-empty, only digits and underscores, starting and
ending with a digit, and no doubled underscore. -/
def intBodyOk (l : List Char) : Bool :=
  (match l.head? with | some c => c.isDigit | none => false) &&
  (match l.getLast? with | some c => c.isDigit | none => false) &&
  l.all (fun c => c.isDigit || c = '_') &&
  noDoubledUnderscore l

/-- Parse the digits-and-underscores body of an integer literal. -/
def pyDigitsParse (l : List Char) : Option Nat :=
  if intBodyOk l then some (digitsToNat (l.filter (fun c => c != '_'))) else none

/-- Python `int(s)` on a string: optional surrounding whitespace, an
optional sign, then a decimal body; `none` models the raised
`ValueError`.  (Non-ASCII digit support of the Python original is not
modelled; the restricted language never uses it.) -/
def pyIntParse (s : List Char) : Option Int :=
  match pyStrip s with
  | '+' :: rest => (pyDigitsParse rest).map (fun n => (n : Int))
  | '-' :: rest => (pyDigitsParse rest).map (fun n => -(n : Int))
  | t => (pyDigitsParse t).map (fun n => (n : Int))

/-- A JSON value as produced by Python's `json.load`: `None`, `bool`,
`int`, `float`, `str`, `list`, or `dict` (string keys, in insertion
order). -/
inductive Json where
  | null : Json
  | bool (b : Bool) : Json
  | int (n : Int) : Json
  | float (q : Rat) : Json
  | str (s : List Char) : Json
  | arr (xs : List Json) : Json
  | obj (fields : List (List Char × Json)) : Json

/-- The membership test `v in (None, '', [])` used by `coalesce`: under
Python `==`, only `None`, the empty string, and an empty list satisfy it
(booleans, `0`, `{}` and all other JSON values do not). -/
def isSkippable : Json → Bool
  | .null => true
  | .str [] => true
  | .arr [] => true
  | _ => false

/-- `p in cur` / `cur[p]` on a Python dict, modelled on the association
list (keys of a dict are unique, so first match is the match). -/
def lookupKey : List (List Char × Json) → List Char → Option Json
  | [], _ => none
  | (k, v) :: rest, p => if k = p then some v else lookupKey rest p

/-- The traversal loop of `json_path_lookup`: step into the next segment
while the current value is a dict containing it, else fail with `None`. -/
def jsonTraverse : Json → List (List Char) → Json
  | cur, [] => cur
  | cur, p :: rest =>
    match cur with
    | .obj fields =>
      match lookupKey fields p with
      | some v => jsonTraverse v rest
      | none => Json.null
    | _ => Json.null

/-- `json_path_lookup(obj, path)` from the source: require the `$.`
prefix, split the remainder on `.`, and traverse. -/
def json_path_lookup (doc : Json) (path : List Char) : Json :=
  if path.take 2 = ['$', '.'] then jsonTraverse doc (pySplit '.' (path.drop 2))
  else Json.null

/-- Leap-year test of the proleptic Gregorian calendar (as in Python's
`datetime`). -/
def isLeap (y : Nat) : Bool :=
  (y % 4 = 0 && y % 100 != 0) || y % 400 = 0

/-- Month lengths. -/
def monthDays (leap : Bool) : List Nat :=
  [31, if leap then 29 else 28, 31, 30, 31, 30, 31, 31, 30, 31, 30, 31]

/-- Days in month `m` (1-based) of year `y`. -/
def daysInMonth (y m : Nat) : Nat :=
  (monthDays (isLeap y)).getD (m - 1) 0

/-- Days in the months before month `m` (1-based) of year `y`. -/
def daysBeforeMonth (y m : Nat) : Nat :=
  (((monthDays (isLeap y)).take (m - 1)).foldl (fun a b => a + b) 0)

/-- CPython's `_ymd2ord`: proleptic-Gregorian ordinal of a date, with
0001-01-01 as ordinal 1 (the ordinal of 1970-01-01 is 719163). -/
def toOrdinal (y m d : Nat) : Nat :=
  (y - 1) * 365 + (y - 1) / 4 - (y - 1) / 100 + (y - 1) / 400 +
    daysBeforeMonth y m + d

/-- A parsed `datetime.datetime`: a valid Gregorian calendar date, a time
of day, a microsecond count, and an optional fixed UTC offset in
microseconds (`None` for a naive datetime). -/
structure PyDateTime where
  year : Nat
  month : Nat
  day : Nat
  hour : Nat
  minute : Nat
  second : Nat
  usec : Nat
  tzMicro : Option Int

/-- The validation performed by the `datetime` constructor. -/
def mkDateTime (y mo d h mi se f : Nat) (tz : Option Int) : Option PyDateTime :=
  if 1 ≤ y ∧ y ≤ 9999 ∧ 1 ≤ mo ∧ mo ≤ 12 ∧ 1 ≤ d ∧ d ≤ daysInMonth y mo ∧
      h ≤ 23 ∧ mi ≤ 59 ∧ se ≤ 59 then
    some ⟨y, mo, d, h, mi, se, f, tz⟩
  else none

/-- Numeric value of a two-digit field. -/
def d2 (a b : Char) : Nat := (a.toNat - 48) * 10 + (b.toNat - 48)

/-- Numeric value of a four-digit field. -/
def d4 (a b c d : Char) : Nat :=
  ((a.toNat - 48) * 10 + (b.toNat - 48)) * 100 + (c.toNat - 48) * 10 + (d.toNat - 48)

/-- CPython's `_parse_isoformat_date`: exactly `YYYY-MM-DD`. -/
def parseDate : List Char → Option (Nat × Nat × Nat)
  | [y1, y2, y3, y4, sa, m1, m2, sb, dy1, dy2] =>
    if y1.isDigit && y2.isDigit && y3.isDigit && y4.isDigit && sa = '-' &&
        m1.isDigit && m2.isDigit && sb = '-' && dy1.isDigit && dy2.isDigit then
      some (d4 y1 y2 y3 y4, d2 m1 m2, d2 dy1 dy2)
    else none
  | _ => none

/-- Fractional-second part: exactly 3 or 6 digits, scaled to
microseconds. -/
def parseFrac (frac : List Char) : Option Nat :=
  if frac.length = 3 && frac.all Char.isDigit then some (digitsToNat frac * 1000)
  else if frac.length = 6 && frac.all Char.isDigit then some (digitsToNat frac)
  else none

/-- CPython's `_parse_hh_mm_ss_ff` (pre-3.11): `HH`, `HH:MM`, `HH:MM:SS`,
or `HH:MM:SS.fff`/`HH:MM:SS.ffffff`.  Returns hours, minutes, seconds and
microseconds; range validation happens in the datetime constructor. -/
def parseHMS : List Char → Option (Nat × Nat × Nat × Nat)
  | [h1, h2] =>
    if h1.isDigit && h2.isDigit then some (d2 h1 h2, 0, 0, 0) else none
  | [h1, h2, c1, m1, m2] =>
    if h1.isDigit && h2.isDigit && c1 = ':' && m1.isDigit && m2.isDigit then
      some (d2 h1 h2, d2 m1 m2, 0, 0)
    else none
  | h1 :: h2 :: c1 :: m1 :: m2 :: c2 :: s1 :: s2 :: rest =>
    if h1.isDigit && h2.isDigit && c1 = ':' && m1.isDigit && m2.isDigit &&
        c2 = ':' && s1.isDigit && s2.isDigit then
      match rest with
      | [] => some (d2 h1 h2, d2 m1 m2, d2 s1 s2, 0)
      | '.' :: frac =>
        (parseFrac frac).map (fun f => (d2 h1 h2, d2 m1 m2, d2 s1 s2, f))
      | _ => none
    else none
  | _ => none

/-- First index of `c` in `t`, if any. -/
def firstIdx (c : Char) : List Char → Option Nat
  | [] => none
  | x :: xs => if x = c then some 0 else (firstIdx c xs).map (fun i => i + 1)

/-- The timezone scan of CPython's `_parse_isoformat_time` (pre-3.11):
the offset starts at the first `-` if present, else at the first `+`;
the second component is the sign. -/
def findTz (t : List Char) : Option (Nat × Int) :=
  match firstIdx '-' t with
  | some i => some (i, -1)
  | none =>
    match firstIdx '+' t with
    | some i => some (i, 1)
    | none => none

/-- CPython's `datetime.fromisoformat` as it exists before Python 3.11
(the grammar the source relies on, hence its manual `Z` replacement):
exactly `YYYY-MM-DD`, optionally followed by one arbitrary separator
character and a time `HH[:MM[:SS[.fff[fff]]]]`, optionally followed by an
offset `±HH:MM[:SS[.ffffff]]` whose string length must be 5, 8, or 15 and
whose magnitude must stay below 24 hours.  `none` models the raised
`ValueError`. -/
def pyFromIsoformat (s : List Char) : Option PyDateTime :=
  if s.length < 10 then none
  else if s.length = 10 then
    match parseDate s with
    | some (y, mo, d) => mkDateTime y mo d 0 0 0 0 none
    | none => none
  else
    match parseDate (s.take 10) with
    | none => none
    | some (y, mo, d) =>
      let tstr := s.drop 11
      match findTz tstr with
      | none =>
        match parseHMS tstr with
        | some (h, mi, se, f) => mkDateTime y mo d h mi se f none
        | none => none
      | some (i, sg) =>
        let timestr := tstr.take i
        let tzstr := tstr.drop (i + 1)
        if tzstr.length = 5 ∨ tzstr.length = 8 ∨ tzstr.length = 15 then
          match parseHMS timestr, parseHMS tzstr with
          | some (h, mi, se, f), some (th, tm, ts, tf) =>
            let offMicro : Int := sg * (((th * 3600 + tm * 60 + ts : Nat) : Int) * 1000000 + (tf : Nat))
            if offMicro.natAbs < 86400000000 then
              mkDateTime y mo d h mi se f (some offMicro)
            else none
          | _, _ => none
        else none

/-- The instant denoted by `dt`, tracked in exact integer microseconds
since the epoch.  An aware datetime subtracts its own offset; a naive
datetime is interpreted in the environment's local time zone, modelled
as the ambient fixed offset `localOff` (in seconds east of UTC).

The Python original routes this quantity through a double —
`dt.timestamp()` — whose rounding error grows with distance from the
epoch and reaches a microsecond beyond roughly `2^33` seconds, well
inside `datetime`'s range; so `int(dt.timestamp() * 1000)` does not in
general equal `Int.tdiv` of this exact value by 1000.  Theorems whose
conclusion depends on the exact result therefore restrict to instants
lying on a whole second, where the double pipeline is exact: for years
1–9999 the epoch seconds, and 1000 times them, are integers of magnitude
below `2^53`, an integer quotient of two ints divides exactly, and the
final multiplication by 1000 stays below `2^53`. -/
def pyTimestampMicros (localOff : Int) (dt : PyDateTime) : Int :=
  let days : Int := (toOrdinal dt.year dt.month dt.day : Nat) - 719163
  let wall : Int :=
    (days * 86400 + (dt.hour : Nat) * 3600 + (dt.minute : Nat) * 60 + (dt.second : Nat)) * 1000000
      + (dt.usec : Nat)
  match dt.tzMicro with
  | some tz => wall - tz
  | none => wall - localOff * 1000000

/-- The `Z` normalization of the source: a trailing literal `Z` is
replaced by `+00:00` before parsing. -/
def zNormalize (s : List Char) : List Char :=
  if s.getLast? = some 'Z' then s.dropLast ++ ['+', '0', '0', ':', '0', '0']
  else s

/-- The no-match fallback of `eval_expr`: a quoted string has its quotes
stripped; otherwise a successful `int()` parse yields an integer, and any
other token is an opaque literal string. -/
def literalEval (e : List Char) : Json :=
  if e.head? = some '\'' ∨ e.head? = some '"' then Json.str (strip_quotes e)
  else
    match pyIntParse e with
    | some k => Json.int k
    | none => Json.str e

/-- The `jsonPathString` / `jsonPathInt` branch: exactly two arguments or
`None`; the first argument (`$`) is ignored, the second is unquoted and
resolved against the document. -/
def jsonPathBranch (doc : Json) : List (List Char) → Json
  | [_, a2] => json_path_lookup doc (strip_quotes a2)
  | _ => Json.null

/-- The `coalesce` branch: evaluate the arguments in order and return
the first value outside `(None, '', [])`, else `None`. -/
def coalesceBranch (ev : List Char → Json) (args : List (List Char)) : Json :=
  ((args.map ev).find? (fun v => ! isSkippable v)).getD Json.null

/-- The `fromDateTime` branch: at least one argument; its value must be
a string; normalize a trailing `Z`, parse with `fromisoformat`, and
return `int(dt.timestamp() * 1000)` — epoch milliseconds truncated
toward zero; every failure produces `None`.  The float steps of the
original are embedded as exact microsecond arithmetic; this is faithful
on whole-second instants and wherever the double rounding does not move
the truncated millisecond (see `pyTimestampMicros`). -/
def fromDateTimeBranch (off : Int) (ev : List Char → Json) : List (List Char) → Json
  | [] => Json.null
  | a :: _ =>
    match ev a with
    | Json.str s =>
      match pyFromIsoformat (zNormalize s) with
      | some dt => Json.int (Int.tdiv (pyTimestampMicros off dt) 1000)
      | none => Json.null
    | _ => Json.null

/-- The `elif` dispatch chain of `eval_expr` over the matched function
name; unknown names produce `None`. -/
def dispatch (off : Int) (ev : List Char → Json) (doc : Json)
    (nm : List Char) (args : List (List Char)) : Json :=
  if nm = String.toList "jsonPathString" ∨ nm = String.toList "jsonPathInt" then
    jsonPathBranch doc args
  else if nm = String.toList "coalesce" then coalesceBranch ev args
  else if nm = String.toList "fromDateTime" then fromDateTimeBranch off ev args
  else Json.null

/-- One unfolding of the body of `eval_expr(expr, payload)`; `ev` stands
for the recursive calls on argument substrings.  Faithful to the source:
strip, try `FUNC_RE`; on no match handle the token as a quoted string or
integer or opaque literal; on a match split the arguments and dispatch on
the function name. -/
def evalBody (off : Int) (ev : List Char → Json) (expr : List Char) (doc : Json) : Json :=
  match pyFuncMatch (pyStrip expr) with
  | none => literalEval (pyStrip expr)
  | some (nm, raw) => dispatch off ev doc nm (split_top_level_args raw)

/-- The evaluator with a fuel bound on recursion depth.  Fuel exhaustion
returns `Json.null`; it is proved unreachable for fuel above the
expression length. -/
def evalFuel (off : Int) : Nat → List Char → Json → Json
  | 0, _, _ => Json.null
  | n + 1, expr, doc => evalBody off (fun a => evalFuel off n a doc) expr doc

/-- `eval_expr(expr, payload)` from the source, as a total function: the
recursion depth of the Python original is bounded by the expression
length, so fuel `expr.length + 1` computes it. -/
def eval_expr (off : Int) (expr : List Char) (doc : Json) : Json :=
  evalFuel off (expr.length + 1) expr doc

/-- Stripping never lengthens a string. -/
lemma pyStrip_length_le (l : List Char) : (pyStrip l).length ≤ l.length := by
  unfold pyStrip
  calc ((l.dropWhile isPySpace).reverse.dropWhile isPySpace).reverse.length
      = ((l.dropWhile isPySpace).reverse.dropWhile isPySpace).length := by
        rw [List.length_reverse]
    _ ≤ (l.dropWhile isPySpace).reverse.length :=
        (List.dropWhile_sublist _).length_le
    _ = (l.dropWhile isPySpace).length := by rw [List.length_reverse]
    _ ≤ l.length := (List.dropWhile_sublist _).length_le

/-- Every argument produced by the splitting loop is either an already
accumulated one or no longer than the pending segment plus the remaining
input. -/
lemma splitLoop_mem_length (s : List Char) :
    ∀ (d : Int) (cur : List Char) (acc : List (List Char)) (a : List Char),
      a ∈ splitLoop s d cur acc → a ∈ acc ∨ a.length ≤ cur.length + s.length := by
  induction s with
  | nil =>
    intro d cur acc a ha
    unfold splitLoop at ha
    by_cases h : pyStrip cur = []
    · rw [if_pos h, List.mem_reverse] at ha
      exact Or.inl ha
    · rw [if_neg h, List.reverse_cons, List.mem_append] at ha
      rcases ha with ha | ha
      · exact Or.inl (List.mem_reverse.mp ha)
      · simp only [List.mem_singleton] at ha
        subst ha
        exact Or.inr (le_trans (pyStrip_length_le cur) (Nat.le_add_right _ _))
  | cons c rest ih =>
    intro d cur acc a ha
    unfold splitLoop at ha
    by_cases h1 : c = '('
    · rw [if_pos h1] at ha
      rcases ih _ _ _ _ ha with h | h
      · exact Or.inl h
      · right; simp only [List.length_append, List.length_cons, List.length_nil] at h ⊢; omega
    · rw [if_neg h1] at ha
      by_cases h2 : c = ')'
      · rw [if_pos h2] at ha
        rcases ih _ _ _ _ ha with h | h
        · exact Or.inl h
        · right; simp only [List.length_append, List.length_cons, List.length_nil] at h ⊢; omega
      · rw [if_neg h2] at ha
        by_cases h3 : c = ',' ∧ d = 0
        · rw [if_pos h3] at ha
          rcases ih _ _ _ _ ha with h | h
          · rcases List.mem_cons.mp h with h | h
            · subst h
              exact Or.inr (le_trans (pyStrip_length_le cur) (Nat.le_add_right _ _))
            · exact Or.inl h
          · right; simp only [List.length_nil, List.length_cons] at h ⊢; omega
        · rw [if_neg h3] at ha
          rcases ih _ _ _ _ ha with h | h
          · exact Or.inl h
          · right; simp only [List.length_append, List.length_cons, List.length_nil] at h ⊢; omega

/-- Arguments are never longer than the raw argument string. -/
lemma split_arg_length (raw a : List Char) (h : a ∈ split_top_level_args raw) :
    a.length ≤ raw.length := by
  rcases splitLoop_mem_length raw 0 [] [] a h with h | h
  · cases h
  · simpa using h

/-- Structure of a successful `FUNC_RE` match: the name is non-empty and
the input consists of the name, `(`, the args group, `)`. -/
lemma pyFuncMatch_some {s nm raw : List Char}
    (h : pyFuncMatch s = some (nm, raw)) :
    nm ≠ [] ∧ s.length = nm.length + raw.length + 2 := by
  unfold pyFuncMatch at h
  by_cases hc : s.takeWhile isWordChar ≠ [] ∧
      (s.dropWhile isWordChar).head? = some '(' ∧
      (s.dropWhile isWordChar).getLast? = some ')' ∧
      2 ≤ (s.dropWhile isWordChar).length ∧
      (((s.dropWhile isWordChar).drop 1).dropLast).all (fun ch => ch != '\n')
  · rw [if_pos hc] at h
    injection h with h
    injection h with h1 h2
    have hlen : s.length = (s.takeWhile isWordChar).length + (s.dropWhile isWordChar).length := by
      conv_lhs => rw [← List.takeWhile_append_dropWhile isWordChar s]
      rw [List.length_append]
    constructor
    · rw [← h1]; exact hc.1
    · rw [← h1, ← h2, hlen, List.length_dropLast, List.length_drop]
      have := hc.2.2.2.1
      omega
  · rw [if_neg hc] at h
    cases h

/-- Every recursive call of the evaluator is on a strictly shorter
string: an argument of a matched call is at least three characters
shorter than the expression (name, `(`, `)`). -/
lemma split_arg_length_lt {expr nm raw : List Char}
    (h : pyFuncMatch (pyStrip expr) = some (nm, raw)) :
    ∀ a ∈ split_top_level_args raw, a.length < expr.length := by
  intro a ha
  rcases pyFuncMatch_some h with ⟨hne, hlen⟩
  have h1 : a.length ≤ raw.length := split_arg_length raw a ha
  have h2 : (pyStrip expr).length ≤ expr.length := pyStrip_length_le expr
  have h3 : 1 ≤ nm.length := by
    cases nm with
    | nil => exact absurd rfl hne
    | cons x xs => simp [List.length_cons]
  omega

/-- `coalesce` only looks at the values of its arguments. -/
lemma coalesceBranch_congr {f g : List Char → Json} {args : List (List Char)}
    (h : ∀ a ∈ args, f a = g a) :
    coalesceBranch f args = coalesceBranch g args := by
  unfold coalesceBranch
  rw [List.map_congr_left h]

/-- `fromDateTime` only looks at the value of its first argument. -/
lemma fromDateTimeBranch_congr (off : Int) {f g : List Char → Json}
    {args : List (List Char)} (h : ∀ a ∈ args, f a = g a) :
    fromDateTimeBranch off f args = fromDateTimeBranch off g args := by
  cases args with
  | nil => rfl
  | cons a rest =>
    simp only [fromDateTimeBranch]
    rw [h a (List.mem_cons_self a rest)]

/-- Dispatch only looks at the values of the arguments. -/
lemma dispatch_congr (off : Int) (doc : Json) (nm : List Char)
    {f g : List Char → Json} {args : List (List Char)}
    (h : ∀ a ∈ args, f a = g a) :
    dispatch off f doc nm args = dispatch off g doc nm args := by
  unfold dispatch
  by_cases h1 : nm = String.toList "jsonPathString" ∨ nm = String.toList "jsonPathInt"
  · rw [if_pos h1, if_pos h1]
  · rw [if_neg h1, if_neg h1]
    by_cases h2 : nm = String.toList "coalesce"
    · rw [if_pos h2, if_pos h2, coalesceBranch_congr h]
    · rw [if_neg h2, if_neg h2]
      by_cases h3 : nm = String.toList "fromDateTime"
      · rw [if_pos h3, if_pos h3, fromDateTimeBranch_congr off h]
      · rw [if_neg h3, if_neg h3]

/-- The evaluator body only applies the recursive evaluation to strictly
shorter strings. -/
lemma evalBody_congr (off : Int) (expr : List Char) (doc : Json)
    {f g : List Char → Json}
    (h : ∀ a, a.length < expr.length → f a = g a) :
    evalBody off f expr doc = evalBody off g expr doc := by
  unfold evalBody
  cases hM : pyFuncMatch (pyStrip expr) with
  | none => rfl
  | some pr =>
    obtain ⟨nm, raw⟩ := pr
    exact dispatch_congr off doc nm
      (fun a ha => h a (split_arg_length_lt hM a ha))

/-- Any two sufficient fuels compute the same value: the recursion depth
of the evaluator is bounded by the length of the expression. -/
lemma evalFuel_stab (off : Int) (doc : Json) :
    ∀ (bound : Nat) (expr : List Char), expr.length ≤ bound →
      ∀ m n, expr.length < m → expr.length < n →
        evalFuel off m expr doc = evalFuel off n expr doc := by
  intro bound
  induction bound with
  | zero =>
    intro expr hb m n hm hn
    cases m with
    | zero => omega
    | succ m' =>
      cases n with
      | zero => omega
      | succ n' =>
        exact evalBody_congr off expr doc (fun a ha => by omega)
  | succ k ih =>
    intro expr hb m n hm hn
    cases m with
    | zero => omega
    | succ m' =>
      cases n with
      | zero => omega
      | succ n' =>
        exact evalBody_congr off expr doc
          (fun a ha => ih a (by omega) m' n' (by omega) (by omega))

/-- Any fuel above the expression length computes `eval_expr`. -/
lemma evalFuel_eq_eval_expr (off : Int) (doc : Json) (expr : List Char)
    {n : Nat} (hn : expr.length < n) :
    evalFuel off n expr doc = eval_expr off expr doc :=
  evalFuel_stab off doc expr.length expr le_rfl n (expr.length + 1) hn (Nat.lt_succ_self _)

/-- The recursion equation of the Python `eval_expr`: one body unfolding
with full recursive calls on the argument substrings. -/
lemma eval_expr_unfold (off : Int) (expr : List Char) (doc : Json) :
    eval_expr off expr doc =
      evalBody off (fun a => eval_expr off a doc) expr doc := by
  show evalBody off (fun a => evalFuel off expr.length a doc) expr doc = _
  exact evalBody_congr off expr doc
    (fun a ha => evalFuel_eq_eval_expr off doc a ha)

/-- Scalar values in the sense of the specification's `Value` type:
string, integer, or null. -/
def isScalarValue : Json → Bool
  | .null => true
  | .int _ => true
  | .str _ => true
  | _ => false

/-- `SubJson v d`: the value `v` occurs inside the document `d` (it is
`d` itself or a member of a nested array or object). -/
inductive SubJson : Json → Json → Prop where
  | refl (v : Json) : SubJson v v
  | arr {v x : Json} {xs : List Json} :
      SubJson v x → x ∈ xs → SubJson v (Json.arr xs)
  | obj {v x : Json} {k : List Char} {fs : List (List Char × Json)} :
      SubJson v x → (k, x) ∈ fs → SubJson v (Json.obj fs)

lemma SubJson.trans {a b c : Json} (hab : SubJson a b) (hbc : SubJson b c) :
    SubJson a c := by
  induction hbc with
  | refl => exact hab
  | arr _ hmem ih => exact SubJson.arr ih hmem
  | obj _ hmem ih => exact SubJson.obj ih hmem

lemma lookupKey_mem {fs : List (List Char × Json)} {p : List Char} {v : Json}
    (h : lookupKey fs p = some v) : (p, v) ∈ fs := by
  induction fs with
  | nil => cases h
  | cons kv rest ih =>
    obtain ⟨k, w⟩ := kv
    unfold lookupKey at h
    by_cases hk : k = p
    · rw [if_pos hk] at h
      injection h with h
      subst hk; subst h
      exact List.mem_cons_self _ _
    · rw [if_neg hk] at h
      exact List.mem_cons_of_mem _ (ih h)

/-- Path traversal returns `None` or a value occurring in the document. -/
lemma jsonTraverse_sub (parts : List (List Char)) :
    ∀ doc : Json, jsonTraverse doc parts = Json.null ∨
      SubJson (jsonTraverse doc parts) doc := by
  induction parts with
  | nil => intro doc; exact Or.inr (SubJson.refl doc)
  | cons p rest ih =>
    intro doc
    cases doc with
    | obj fields =>
      have hred : ∀ z, lookupKey fields p = some z →
          jsonTraverse (Json.obj fields) (p :: rest) = jsonTraverse z rest := by
        intro z hz
        simp only [jsonTraverse, hz]
      cases hk : lookupKey fields p with
      | none =>
        left
        simp only [jsonTraverse, hk]
      | some v =>
        rw [hred v hk]
        rcases ih v with h | h
        · exact Or.inl h
        · exact Or.inr (h.trans (SubJson.obj (SubJson.refl v) (lookupKey_mem hk)))
    | null => exact Or.inl rfl
    | bool b => exact Or.inl rfl
    | int n => exact Or.inl rfl
    | float q => exact Or.inl rfl
    | str s => exact Or.inl rfl
    | arr xs => exact Or.inl rfl

/-- `json_path_lookup` returns `None` or a value occurring in the
document. -/
lemma json_path_lookup_sub (doc : Json) (path : List Char) :
    json_path_lookup doc path = Json.null ∨
      SubJson (json_path_lookup doc path) doc := by
  unfold json_path_lookup
  by_cases h : path.take 2 = ['$', '.']
  · rw [if_pos h]; exact jsonTraverse_sub _ doc
  · rw [if_neg h]; exact Or.inl rfl

/-- The specification's description of `coalesce`: the first value that
is not `null`, not the empty string and not an empty sequence, else
`null`. -/
def firstNonNullish : List Json → Json
  | [] => Json.null
  | v :: rest => if isSkippable v then firstNonNullish rest else v

/-- The fold of the implementation is the first-match description. -/
lemma find_getD_eq_firstNonNullish (vals : List Json) :
    ((vals.find? (fun v => ! isSkippable v)).getD Json.null) =
      firstNonNullish vals := by
  induction vals with
  | nil => rfl
  | cons v rest ih =>
    cases hv : isSkippable v with
    | true => simp [List.find?_cons, hv, firstNonNullish, ih]
    | false => simp [List.find?_cons, hv, firstNonNullish]

/-- The claim-side splitter: the segments of the input between the
depth-0 commas, in order, with empty segments preserved. -/
def depthSplitGo : List Char → Int → List Char → List (List Char)
  | [], _, cur => [cur]
  | c :: rest, d, cur =>
    if c = ',' ∧ d = 0 then cur :: depthSplitGo rest d []
    else depthSplitGo rest (if c = '(' then d + 1 else if c = ')' then d - 1 else d) (cur ++ [c])

/-- Drop a final segment that is empty. -/
def dropTrailingEmpty (l : List (List Char)) : List (List Char) :=
  if l.getLast? = some [] then l.dropLast else l

lemma depthSplitGo_ne_nil (s : List Char) :
    ∀ d cur, depthSplitGo s d cur ≠ [] := by
  induction s with
  | nil => intro d cur; exact List.cons_ne_nil _ _
  | cons c rest ih =>
    intro d cur
    unfold depthSplitGo
    by_cases h : c = ',' ∧ d = 0
    · rw [if_pos h]; exact List.cons_ne_nil _ _
    · rw [if_neg h]; exact ih _ _

lemma dropTrailingEmpty_cons {l : List (List Char)} (x : List Char)
    (h : l ≠ []) :
    dropTrailingEmpty (x :: l) = x :: dropTrailingEmpty l := by
  cases l with
  | nil => exact absurd rfl h
  | cons y t =>
    unfold dropTrailingEmpty
    rw [List.getLast?_cons_cons]
    by_cases hl : (y :: t).getLast? = some []
    · rw [if_pos hl, if_pos hl, List.dropLast_cons₂]
    · rw [if_neg hl, if_neg hl]

lemma splitLoop_eq (s : List Char) :
    ∀ (d : Int) (cur : List Char) (acc : List (List Char)),
      splitLoop s d cur acc =
        acc.reverse ++ dropTrailingEmpty ((depthSplitGo s d cur).map pyStrip) := by
  induction s with
  | nil =>
    intro d cur acc
    unfold splitLoop depthSplitGo
    by_cases h : pyStrip cur = []
    · rw [if_pos h]
      simp [dropTrailingEmpty, h]
    · rw [if_neg h]
      simp [dropTrailingEmpty, h, List.reverse_cons]
  | cons c rest ih =>
    intro d cur acc
    unfold splitLoop depthSplitGo
    by_cases h1 : c = '('
    · have hno : ¬(c = ',' ∧ d = 0) := fun hcd => by
        rw [h1] at hcd; exact absurd hcd.1 (by decide)
      rw [if_pos h1, if_neg hno, if_pos h1]
      exact ih _ _ _
    · rw [if_neg h1]
      by_cases h2 : c = ')'
      · have hno : ¬(c = ',' ∧ d = 0) := fun hcd => by
          rw [h2] at hcd; exact absurd hcd.1 (by decide)
        rw [if_pos h2, if_neg hno, if_neg h1, if_pos h2]
        exact ih _ _ _
      · by_cases h3 : c = ',' ∧ d = 0
        · rw [if_neg h2, if_pos h3, if_pos h3]
          have hmapne : (depthSplitGo rest d []).map pyStrip ≠ [] := fun hm =>
            depthSplitGo_ne_nil rest d [] (List.map_eq_nil_iff.mp hm)
          rw [List.map_cons, dropTrailingEmpty_cons _ hmapne, ih _ _ _,
            List.reverse_cons, List.append_assoc]
          rfl
        · rw [if_neg h2, if_neg h3, if_neg h3, if_neg h1, if_neg h2]
          exact ih _ _ _

/-- `split_top_level_args` is the trimmed depth-0 comma split with a
final empty segment dropped. -/
lemma split_eq_depthSplit (s : List Char) :
    split_top_level_args s =
      dropTrailingEmpty ((depthSplitGo s 0 []).map pyStrip) := by
  unfold split_top_level_args
  rw [splitLoop_eq]
  rfl

lemma evalBody_match_none {expr : List Char} (off : Int) (ev : List Char → Json)
    (doc : Json) (h : pyFuncMatch (pyStrip expr) = none) :
    evalBody off ev expr doc = literalEval (pyStrip expr) := by
  unfold evalBody
  rw [h]

lemma evalBody_match_some {expr nm raw : List Char} (off : Int)
    (ev : List Char → Json) (doc : Json)
    (h : pyFuncMatch (pyStrip expr) = some (nm, raw)) :
    evalBody off ev expr doc = dispatch off ev doc nm (split_top_level_args raw) := by
  unfold evalBody
  rw [h]

lemma dispatch_jsonPathString (off : Int) (ev : List Char → Json) (doc : Json)
    (args : List (List Char)) :
    dispatch off ev doc (String.toList "jsonPathString") args = jsonPathBranch doc args := by
  unfold dispatch
  rw [if_pos (Or.inl rfl)]

lemma dispatch_jsonPathInt (off : Int) (ev : List Char → Json) (doc : Json)
    (args : List (List Char)) :
    dispatch off ev doc (String.toList "jsonPathInt") args = jsonPathBranch doc args := by
  unfold dispatch
  rw [if_pos (Or.inr rfl)]

lemma dispatch_coalesce (off : Int) (ev : List Char → Json) (doc : Json)
    (args : List (List Char)) :
    dispatch off ev doc (String.toList "coalesce") args = coalesceBranch ev args := by
  unfold dispatch
  rw [if_neg (by decide), if_pos rfl]

lemma dispatch_fromDateTime (off : Int) (ev : List Char → Json) (doc : Json)
    (args : List (List Char)) :
    dispatch off ev doc (String.toList "fromDateTime") args = fromDateTimeBranch off ev args := by
  unfold dispatch
  rw [if_neg (by decide), if_neg (by decide), if_pos rfl]

lemma dispatch_unknown (off : Int) (ev : List Char → Json) (doc : Json)
    {nm : List Char} (args : List (List Char))
    (h1 : ¬(nm = String.toList "jsonPathString" ∨ nm = String.toList "jsonPathInt"))
    (h2 : nm ≠ String.toList "coalesce") (h3 : nm ≠ String.toList "fromDateTime") :
    dispatch off ev doc nm args = Json.null := by
  unfold dispatch
  rw [if_neg h1, if_neg h2, if_neg h3]

/-- A literal token always evaluates to a string or an integer. -/
lemma literalEval_scalar (e : List Char) : isScalarValue (literalEval e) = true := by
  unfold literalEval
  by_cases h : e.head? = some '\'' ∨ e.head? = some '"'
  · rw [if_pos h]; rfl
  · rw [if_neg h]
    cases pyIntParse e with
    | none => rfl
    | some k => rfl

/-- `jsonPathString` / `jsonPathInt` return `None` unless given exactly
two arguments. -/
lemma jsonPathBranch_ne_two (doc : Json) {args : List (List Char)}
    (h : args.length ≠ 2) : jsonPathBranch doc args = Json.null := by
  match args with
  | [] => rfl
  | [a] => rfl
  | [a, b] => exact absurd rfl h
  | a :: b :: c :: t => rfl

lemma dropWhile_eq_self_of_head {p : Char → Bool} {l : List Char}
    (h : ∀ c, l.head? = some c → p c = false) : l.dropWhile p = l := by
  cases l with
  | nil => rfl
  | cons c t =>
    rw [List.dropWhile_cons, if_neg]
    rw [h c rfl]
    simp

/-- A string that neither starts nor ends with whitespace strips to
itself. -/
lemma pyStrip_eq_self {l : List Char}
    (h1 : ∀ c, l.head? = some c → isPySpace c = false)
    (h2 : ∀ c, l.getLast? = some c → isPySpace c = false) : pyStrip l = l := by
  unfold pyStrip
  rw [dropWhile_eq_self_of_head h1]
  rw [dropWhile_eq_self_of_head (fun c hc => h2 c (by rwa [← List.head?_reverse]))]
  exact List.reverse_reverse l

lemma takeWhile_word_concat {nm : List Char} (z : List Char)
    (h : nm.all isWordChar = true) :
    (nm ++ '(' :: z).takeWhile isWordChar = nm ∧
      (nm ++ '(' :: z).dropWhile isWordChar = '(' :: z := by
  induction nm with
  | nil =>
    constructor
    · rw [List.nil_append, List.takeWhile_cons, if_neg (by decide)]
    · rw [List.nil_append]
      exact dropWhile_eq_self_of_head (fun c hc => by
        injection hc with hc
        rw [← hc]
        decide)
  | cons c t ih =>
    rw [List.all_cons, Bool.and_eq_true] at h
    obtain ⟨hc, ht⟩ := h
    obtain ⟨iht, ihd⟩ := ih ht
    constructor
    · rw [List.cons_append, List.takeWhile_cons, if_pos hc, iht]
    · rw [List.cons_append, List.dropWhile_cons, if_pos hc, ihd]

/-- `FUNC_RE` on a well-formed call `name(args)`: the match succeeds and
returns exactly the name and the raw argument substring. -/
lemma pyFuncMatch_concat (nm raw : List Char) (hne : nm ≠ [])
    (hword : nm.all isWordChar = true)
    (hnl : raw.all (fun ch => ch != '\n') = true) :
    pyFuncMatch (nm ++ '(' :: (raw ++ [')'])) = some (nm, raw) := by
  obtain ⟨htw, hdw⟩ := takeWhile_word_concat (raw ++ [')']) hword
  have hlast : ('(' :: (raw ++ [')'])).getLast? = some ')' := by
    rw [← List.cons_append, List.getLast?_concat]
  have hdrop : (('(' :: (raw ++ [')'])).drop 1).dropLast = raw := by
    show (raw ++ [')']).dropLast = raw
    exact List.dropLast_concat
  unfold pyFuncMatch
  rw [htw, hdw]
  rw [if_pos ⟨hne, rfl, hlast, by simp, by rw [hdrop]; exact hnl⟩, hdrop]

/-- The date branch on a string value yields an integer or `None`. -/
lemma fromDateTimeStr_scalar (off : Int) (s : List Char) :
    isScalarValue (match pyFromIsoformat (zNormalize s) with
      | some dt => Json.int (Int.tdiv (pyTimestampMicros off dt) 1000)
      | none => Json.null) = true := by
  cases pyFromIsoformat (zNormalize s) with
  | some dt => rfl
  | none => rfl

/-- Every evaluator result is a scalar or occurs in the document. -/
lemma evalFuel_shape (off : Int) (doc : Json) :
    ∀ (n : Nat) (expr : List Char),
      isScalarValue (evalFuel off n expr doc) = true ∨
        SubJson (evalFuel off n expr doc) doc := by
  intro n
  induction n with
  | zero => intro expr; exact Or.inl rfl
  | succ k ih =>
    intro expr
    show isScalarValue (evalBody off (fun a => evalFuel off k a doc) expr doc) = true ∨
      SubJson (evalBody off (fun a => evalFuel off k a doc) expr doc) doc
    cases hM : pyFuncMatch (pyStrip expr) with
    | none =>
      rw [evalBody_match_none off _ doc hM]
      exact Or.inl (literalEval_scalar _)
    | some pr =>
      obtain ⟨nm, raw⟩ := pr
      rw [evalBody_match_some off _ doc hM]
      by_cases h1 : nm = String.toList "jsonPathString" ∨ nm = String.toList "jsonPathInt"
      · have hj : dispatch off (fun a => evalFuel off k a doc) doc nm
            (split_top_level_args raw) =
            jsonPathBranch doc (split_top_level_args raw) := by
          unfold dispatch
          rw [if_pos h1]
        rw [hj]
        cases hargs : split_top_level_args raw with
        | nil => exact Or.inl rfl
        | cons a rest =>
          cases rest with
          | nil => exact Or.inl rfl
          | cons b rest2 =>
            cases rest2 with
            | nil =>
              show isScalarValue (json_path_lookup doc (strip_quotes b)) = true ∨ _
              rcases json_path_lookup_sub doc (strip_quotes b) with h | h
              · rw [h]; exact Or.inl rfl
              · exact Or.inr h
            | cons c rest3 => exact Or.inl rfl
      · by_cases h2 : nm = String.toList "coalesce"
        · subst h2
          rw [dispatch_coalesce]
          unfold coalesceBranch
          cases hf : ((split_top_level_args raw).map
              (fun a => evalFuel off k a doc)).find? (fun v => ! isSkippable v) with
          | none => exact Or.inl rfl
          | some v =>
            show isScalarValue v = true ∨ SubJson v doc
            have hv := List.mem_of_find?_eq_some hf
            rcases List.mem_map.mp hv with ⟨a, _, ha⟩
            rw [← ha]
            exact ih a
        · by_cases h3 : nm = String.toList "fromDateTime"
          · subst h3
            rw [dispatch_fromDateTime]
            cases hargs : split_top_level_args raw with
            | nil => exact Or.inl rfl
            | cons a rest =>
              show isScalarValue (match evalFuel off k a doc with
                | Json.str s =>
                  match pyFromIsoformat (zNormalize s) with
                  | some dt => Json.int (Int.tdiv (pyTimestampMicros off dt) 1000)
                  | none => Json.null
                | _ => Json.null) = true ∨ _
              cases evalFuel off k a doc with
              | str s => exact Or.inl (fromDateTimeStr_scalar off s)
              | null => exact Or.inl rfl
              | bool b => exact Or.inl rfl
              | int m => exact Or.inl rfl
              | float q => exact Or.inl rfl
              | arr xs => exact Or.inl rfl
              | obj fs => exact Or.inl rfl
          · rw [dispatch_unknown off _ doc _ h1 h2 h3]
            exact Or.inl rfl

/-- The test-vector document `{"a": {"b": 5}}`. -/
def docAB : Json :=
  Json.obj [(String.toList "a", Json.obj [(String.toList "b", Json.int 5)])]

/-- The test-vector document `{"a": {}}`. -/
def docAEmpty : Json :=
  Json.obj [(String.toList "a", Json.obj [])]

/-- The document `{"a": true}`. -/
def docABool : Json :=
  Json.obj [(String.toList "a", Json.bool true)]

/-- C1, counterexample: evaluating `jsonPathString($, '$.a')` against the
document `{"a": true}` returns the boolean `true`, which is not a string,
an integer, or null — refuting the claim that `evaluate` only ever
produces values from {string, integer, null}. -/
theorem c1_counterexample :
    eval_expr 0 (String.toList "jsonPathString($, '$.a')") docABool = Json.bool true ∧
    isScalarValue (eval_expr 0 (String.toList "jsonPathString($, '$.a')") docABool) = false :=
  ⟨rfl, rfl⟩

/-- C1 (amended): for every expression string, document and local-time
offset, the value returned by `eval_expr` is a string, an integer, or
null — or else a value that occurs verbatim inside the document: a
float, boolean, array, or object can be produced only as the
pass-through result of a JSON-path lookup into the document. -/
theorem c1_amended_value_shape (off : Int) (expr : List Char) (doc : Json) :
    isScalarValue (eval_expr off expr doc) = true ∨
      SubJson (eval_expr off expr doc) doc :=
  evalFuel_shape off doc (expr.length + 1) expr

/-- C2: `json_path_lookup` returns null when the path does not start
with `$.`; otherwise the `$.`-stripped remainder is split on `.` and the
document is traversed segment by segment — null as soon as the current
value is not a mapping containing the segment, the found value on
success.  The three specification test vectors evaluate accordingly via
the full evaluator: `5`, null, null. -/
theorem c2_json_path_resolution :
    (∀ (doc : Json) (p : List Char), ¬ p.take 2 = ['$', '.'] →
      json_path_lookup doc p = Json.null)
  ∧ (∀ (doc : Json) (p : List Char), p.take 2 = ['$', '.'] →
      json_path_lookup doc p = jsonTraverse doc (pySplit '.' (p.drop 2)))
  ∧ (∀ off : Int,
      eval_expr off (String.toList "jsonPathString($, '$.a.b')") docAB = Json.int 5)
  ∧ (∀ off : Int,
      eval_expr off (String.toList "jsonPathString($, '$.a.b')") docAEmpty = Json.null)
  ∧ (∀ off : Int,
      eval_expr off (String.toList "jsonPathString($, '$.a.b')") (Json.obj []) = Json.null) := by
  refine ⟨fun doc p hp => ?_, fun doc p hp => ?_,
    fun off => rfl, fun off => rfl, fun off => rfl⟩
  · unfold json_path_lookup
    rw [if_neg hp]
  · unfold json_path_lookup
    rw [if_pos hp]

/-- Witness for C2 at concrete inputs: the prefix-less path `a.b` fails
to null, and a `$.`-prefixed path resolves by traversal. -/
theorem c2_json_path_resolution_witness :
    (¬ (String.toList "a.b").take 2 = ['$', '.']) ∧
    json_path_lookup docAB (String.toList "a.b") = Json.null ∧
    ((String.toList "$.a.b").take 2 = ['$', '.']) ∧
    json_path_lookup docAB (String.toList "$.a.b") =
      jsonTraverse docAB (pySplit '.' ((String.toList "$.a.b").drop 2)) :=
  ⟨by decide, c2_json_path_resolution.1 docAB _ (by decide), by decide,
    c2_json_path_resolution.2.1 docAB _ (by decide)⟩

/-- C6: evaluation always terminates, with recursion depth bounded by
the input length — any fuel above the expression length already computes
the total `eval_expr`, because every recursive call (an argument of a
matched call) receives a strictly shorter string. -/
theorem c6_termination_depth_bound (off : Int) (expr : List Char) (doc : Json) :
    (∀ n, expr.length < n → evalFuel off n expr doc = eval_expr off expr doc)
  ∧ (∀ nm raw, pyFuncMatch (pyStrip expr) = some (nm, raw) →
      ∀ a ∈ split_top_level_args raw, a.length < expr.length) :=
  ⟨fun _ hn => evalFuel_eq_eval_expr off doc expr hn,
   fun _ _ h a ha => split_arg_length_lt h a ha⟩

/-- Witness for C6 at a concrete input. -/
theorem c6_termination_depth_bound_witness :
    ((String.toList "coalesce(1, 2)").length < 50 ∧
      evalFuel 0 50 (String.toList "coalesce(1, 2)") (Json.obj []) =
        eval_expr 0 (String.toList "coalesce(1, 2)") (Json.obj [])) ∧
    (pyFuncMatch (pyStrip (String.toList "coalesce(1, 2)")) =
        some (String.toList "coalesce", String.toList "1, 2") ∧
      String.toList "1" ∈ split_top_level_args (String.toList "1, 2") ∧
      (String.toList "1").length < (String.toList "coalesce(1, 2)").length) :=
  ⟨⟨by decide, (c6_termination_depth_bound 0 _ _).1 50 (by decide)⟩,
   rfl, by decide,
   (c6_termination_depth_bound 0 (String.toList "coalesce(1, 2)") (Json.obj [])).2
     _ _ rfl _ (by decide)⟩

/-- The claim's literal reading of `split_args`: every depth-0 comma
segment is kept and trimmed, with only an entirely-empty input yielding
zero arguments. -/
def splitArgsSpec (s : List Char) : List (List Char) :=
  if pyStrip s = [] then [] else (depthSplitGo s 0 []).map pyStrip

/-- C8, counterexample: on the input `"a,"` the claimed splitter yields
`["a", ""]`, but `split_top_level_args` yields `["a"]` — a trailing
segment that trims to empty is dropped, not kept. -/
theorem c8_counterexample :
    splitArgsSpec (String.toList "a,") = [String.toList "a", []] ∧
    split_top_level_args (String.toList "a,") = [String.toList "a"] ∧
    split_top_level_args (String.toList "a,") ≠ splitArgsSpec (String.toList "a,") :=
  ⟨rfl, rfl, by decide⟩

/-- C8 (amended): `split_top_level_args` splits exactly on the commas at
parenthesis depth 0 and trims each resulting segment, except that a
final segment that trims to empty is dropped — hence an input that trims
to empty yields zero arguments; the specification's example split holds:
`split_args("a(b,c), d") = ["a(b,c)", "d"]`. -/
theorem c8_amended_split_args :
    (∀ s : List Char, split_top_level_args s =
      dropTrailingEmpty ((depthSplitGo s 0 []).map pyStrip))
  ∧ split_top_level_args (String.toList "a(b,c), d") =
      [String.toList "a(b,c)", String.toList "d"] :=
  ⟨split_eq_depthSplit, rfl⟩

/-- C9: empty depth-0 segments are treated asymmetrically: a leading (or
interior) comma segment that trims to empty is kept as an empty-string
argument — `",a"` splits to `["", "a"]`, and in general a leading comma
prepends one empty argument — while a trailing segment that trims to
empty is silently dropped: `"a,"` splits to `["a"]`. -/
theorem c9_empty_segment_asymmetry :
    split_top_level_args (String.toList ",a") = [[], String.toList "a"]
  ∧ split_top_level_args (String.toList "a,") = [String.toList "a"]
  ∧ (∀ s : List Char, split_top_level_args (',' :: s) = [] :: split_top_level_args s) := by
  refine ⟨rfl, rfl, fun s => ?_⟩
  have hd : depthSplitGo (',' :: s) 0 [] = [] :: depthSplitGo s 0 [] := by
    simp [depthSplitGo]
  have hne : (depthSplitGo s 0 []).map pyStrip ≠ [] := fun hm =>
    depthSplitGo_ne_nil s 0 [] (List.map_eq_nil_iff.mp hm)
  rw [split_eq_depthSplit, split_eq_depthSplit, hd, List.map_cons,
    dropTrailingEmpty_cons _ hne]
  rfl

/-- C4: `coalesce` evaluates its arguments left to right and returns the
value of the first argument whose evaluated value is not null, not the
empty string, and not an empty sequence, returning null when no argument
qualifies; in particular `coalesce('', foo(), 'x')` — with `foo()`
evaluating to null — returns `'x'`. -/
theorem c4_coalesce_first_usable :
    (∀ (off : Int) (expr raw : List Char) (doc : Json),
      pyFuncMatch (pyStrip expr) = some (String.toList "coalesce", raw) →
      eval_expr off expr doc =
        firstNonNullish ((split_top_level_args raw).map (fun a => eval_expr off a doc)))
  ∧ (∀ off : Int,
      eval_expr off (String.toList "coalesce('', foo(), 'x')") (Json.obj []) =
        Json.str (String.toList "x"))
  ∧ (∀ off : Int, eval_expr off (String.toList "foo()") (Json.obj []) = Json.null) := by
  refine ⟨fun off expr raw doc h => ?_, fun off => rfl, fun off => rfl⟩
  rw [eval_expr_unfold, evalBody_match_some off _ doc h, dispatch_coalesce,
    ← find_getD_eq_firstNonNullish]
  rfl

/-- Witness for C4 at a concrete input. -/
theorem c4_coalesce_first_usable_witness :
    pyFuncMatch (pyStrip (String.toList "coalesce(1, 2)")) =
      some (String.toList "coalesce", String.toList "1, 2") ∧
    eval_expr 0 (String.toList "coalesce(1, 2)") (Json.obj []) =
      firstNonNullish ((split_top_level_args (String.toList "1, 2")).map
        (fun a => eval_expr 0 a (Json.obj []))) :=
  ⟨rfl, c4_coalesce_first_usable.1 0 _ _ _ rfl⟩

/-- C7: for every raw argument string (newline-free, as `FUNC_RE`
requires for any match) and every document, `jsonPathInt(raw)` evaluates
to exactly the same value as `jsonPathString(raw)` — no integer coercion
is performed — and both return null when the split argument count is not
exactly 2. -/
theorem c7_jsonPathInt_is_jsonPathString :
    ∀ (off : Int) (doc : Json) (raw : List Char), '\n' ∉ raw →
      (eval_expr off (String.toList "jsonPathInt" ++ '(' :: (raw ++ [')'])) doc =
        eval_expr off (String.toList "jsonPathString" ++ '(' :: (raw ++ [')'])) doc)
      ∧ ((split_top_level_args raw).length ≠ 2 →
          eval_expr off (String.toList "jsonPathInt" ++ '(' :: (raw ++ [')'])) doc =
            Json.null) := by
  intro off doc raw hnl
  have hall : raw.all (fun ch => ch != '\n') = true := by
    rw [List.all_eq_true]
    intro ch hc
    rw [bne_iff_ne]
    rintro rfl
    exact hnl hc
  have hstrip1 : pyStrip (String.toList "jsonPathInt" ++ '(' :: (raw ++ [')'])) =
      String.toList "jsonPathInt" ++ '(' :: (raw ++ [')']) := by
    refine pyStrip_eq_self (fun c hc => ?_) (fun c hc => ?_)
    · have h2 : some 'j' = some c := hc
      injection h2 with h2
      rw [← h2]
      rfl
    · rw [← List.cons_append, ← List.append_assoc, List.getLast?_concat] at hc
      injection hc with h2
      rw [← h2]
      rfl
  have hstrip2 : pyStrip (String.toList "jsonPathString" ++ '(' :: (raw ++ [')'])) =
      String.toList "jsonPathString" ++ '(' :: (raw ++ [')']) := by
    refine pyStrip_eq_self (fun c hc => ?_) (fun c hc => ?_)
    · have h2 : some 'j' = some c := hc
      injection h2 with h2
      rw [← h2]
      rfl
    · rw [← List.cons_append, ← List.append_assoc, List.getLast?_concat] at hc
      injection hc with h2
      rw [← h2]
      rfl
  have hm1 : pyFuncMatch (pyStrip (String.toList "jsonPathInt" ++ '(' :: (raw ++ [')']))) =
      some (String.toList "jsonPathInt", raw) := by
    rw [hstrip1]
    exact pyFuncMatch_concat _ _ (by decide) (by decide) hall
  have hm2 : pyFuncMatch (pyStrip (String.toList "jsonPathString" ++ '(' :: (raw ++ [')']))) =
      some (String.toList "jsonPathString", raw) := by
    rw [hstrip2]
    exact pyFuncMatch_concat _ _ (by decide) (by decide) hall
  constructor
  · rw [eval_expr_unfold, eval_expr_unfold, evalBody_match_some off _ doc hm1,
      evalBody_match_some off _ doc hm2, dispatch_jsonPathInt, dispatch_jsonPathString]
  · intro hlen
    rw [eval_expr_unfold, evalBody_match_some off _ doc hm1, dispatch_jsonPathInt]
    exact jsonPathBranch_ne_two doc hlen

/-- Witness for C7 at concrete inputs: the two-argument case resolves
identically under both names, and a one-argument call returns null. -/
theorem c7_jsonPathInt_is_jsonPathString_witness :
    ('\n' ∉ String.toList "$, '$.a.b'") ∧
    (eval_expr 0 (String.toList "jsonPathInt" ++ '(' :: (String.toList "$, '$.a.b'" ++ [')'])) docAB =
      eval_expr 0 (String.toList "jsonPathString" ++ '(' :: (String.toList "$, '$.a.b'" ++ [')'])) docAB) ∧
    ((split_top_level_args (String.toList "$")).length ≠ 2 ∧
      eval_expr 0 (String.toList "jsonPathInt" ++ '(' :: (String.toList "$" ++ [')'])) docAB =
        Json.null) :=
  ⟨by decide,
   (c7_jsonPathInt_is_jsonPathString 0 docAB _ (by decide)).1,
   by decide,
   (c7_jsonPathInt_is_jsonPathString 0 docAB _ (by decide)).2 (by decide)⟩

/-- C5: the evaluator is a total function and every failure path
resolves to the value null rather than a raised fault: an unknown
function name, a wrong argument count for the path functions, a
zero-argument `fromDateTime`, a non-string date value, an unparsable
date string, and a path without the `$.` prefix all produce null, while
malformed call syntax (no `FUNC_RE` match) falls through to literal
handling and produces a plain scalar, never an error. -/
theorem c5_failures_resolve_to_null (off : Int) (expr : List Char) (doc : Json) :
    (∀ nm raw, pyFuncMatch (pyStrip expr) = some (nm, raw) →
      nm ∉ [String.toList "jsonPathString", String.toList "jsonPathInt",
            String.toList "coalesce", String.toList "fromDateTime"] →
      eval_expr off expr doc = Json.null)
  ∧ (∀ nm raw, pyFuncMatch (pyStrip expr) = some (nm, raw) →
      (nm = String.toList "jsonPathString" ∨ nm = String.toList "jsonPathInt") →
      (split_top_level_args raw).length ≠ 2 →
      eval_expr off expr doc = Json.null)
  ∧ (∀ raw, pyFuncMatch (pyStrip expr) = some (String.toList "fromDateTime", raw) →
      split_top_level_args raw = [] →
      eval_expr off expr doc = Json.null)
  ∧ (∀ raw a rest, pyFuncMatch (pyStrip expr) = some (String.toList "fromDateTime", raw) →
      split_top_level_args raw = a :: rest →
      (∀ s, eval_expr off a doc ≠ Json.str s) →
      eval_expr off expr doc = Json.null)
  ∧ (∀ raw a rest s, pyFuncMatch (pyStrip expr) = some (String.toList "fromDateTime", raw) →
      split_top_level_args raw = a :: rest →
      eval_expr off a doc = Json.str s →
      pyFromIsoformat (zNormalize s) = none →
      eval_expr off expr doc = Json.null)
  ∧ (∀ p : List Char, ¬ p.take 2 = ['$', '.'] → json_path_lookup doc p = Json.null)
  ∧ (pyFuncMatch (pyStrip expr) = none →
      isScalarValue (eval_expr off expr doc) = true) := by
  refine ⟨?_, ?_, ?_, ?_, ?_, ?_, ?_⟩
  · intro nm raw h hmem
    simp only [List.mem_cons, List.not_mem_nil, or_false, not_or] at hmem
    obtain ⟨h1a, h1b, h2, h3⟩ := hmem
    rw [eval_expr_unfold, evalBody_match_some off _ doc h]
    exact dispatch_unknown off _ doc _ (fun hor => hor.elim h1a h1b) h2 h3
  · intro nm raw h hname hlen
    rw [eval_expr_unfold, evalBody_match_some off _ doc h]
    have hj : dispatch off (fun a => eval_expr off a doc) doc nm
        (split_top_level_args raw) =
        jsonPathBranch doc (split_top_level_args raw) := by
      unfold dispatch
      rw [if_pos hname]
    rw [hj]
    exact jsonPathBranch_ne_two doc hlen
  · intro raw h hsplit
    rw [eval_expr_unfold, evalBody_match_some off _ doc h, dispatch_fromDateTime, hsplit]
    exact rfl
  · intro raw a rest h hsplit hns
    rw [eval_expr_unfold, evalBody_match_some off _ doc h, dispatch_fromDateTime, hsplit]
    simp only [fromDateTimeBranch]
  · intro raw a rest s h hsplit hv hparse
    rw [eval_expr_unfold, evalBody_match_some off _ doc h, dispatch_fromDateTime, hsplit]
    simp only [fromDateTimeBranch]
    rw [hv]
    show (match pyFromIsoformat (zNormalize s) with
      | some dt => Json.int (Int.tdiv (pyTimestampMicros off dt) 1000)
      | none => Json.null) = Json.null
    rw [hparse]
  · intro p hp
    unfold json_path_lookup
    rw [if_neg hp]
  · intro h
    rw [eval_expr_unfold, evalBody_match_none off _ doc h]
    exact literalEval_scalar _

/-- Witness for C5: one concrete instance per failure mode, all null (or
a scalar literal for the malformed-syntax fallback). -/
theorem c5_failures_resolve_to_null_witness :
    (pyFuncMatch (pyStrip (String.toList "foo(1,2)")) =
        some (String.toList "foo", String.toList "1,2") ∧
      eval_expr 0 (String.toList "foo(1,2)") (Json.obj []) = Json.null) ∧
    eval_expr 0 (String.toList "jsonPathString($)") (Json.obj []) = Json.null ∧
    eval_expr 0 (String.toList "fromDateTime()") (Json.obj []) = Json.null ∧
    eval_expr 0 (String.toList "fromDateTime(5)") (Json.obj []) = Json.null ∧
    eval_expr 0 (String.toList "fromDateTime('not-a-date', 'x')") (Json.obj []) = Json.null ∧
    json_path_lookup (Json.obj []) (String.toList "a.b") = Json.null ∧
    isScalarValue (eval_expr 0 (String.toList "'lit'") (Json.obj [])) = true :=
  ⟨⟨rfl, (c5_failures_resolve_to_null 0 (String.toList "foo(1,2)") (Json.obj [])).1
      _ _ rfl (by decide)⟩,
   (c5_failures_resolve_to_null 0 (String.toList "jsonPathString($)") (Json.obj [])).2.1
      _ _ rfl (Or.inl rfl) (by decide),
   (c5_failures_resolve_to_null 0 (String.toList "fromDateTime()") (Json.obj [])).2.2.1
      _ rfl rfl,
   (c5_failures_resolve_to_null 0 (String.toList "fromDateTime(5)") (Json.obj [])).2.2.2.1
      _ _ _ rfl rfl (fun s h =>
        Json.noConfusion (show Json.int 5 = Json.str s from h)),
   (c5_failures_resolve_to_null 0 (String.toList "fromDateTime('not-a-date', 'x')")
      (Json.obj [])).2.2.2.2.1 _ _ _ _ rfl rfl rfl rfl,
   (c5_failures_resolve_to_null 0 (String.toList "x") (Json.obj [])).2.2.2.2.2.1
      _ (by decide),
   (c5_failures_resolve_to_null 0 (String.toList "'lit'") (Json.obj [])).2.2.2.2.2.2 rfl⟩

/-- C3, counterexample: `fromDateTime('1969-12-31T23:59:59.999900Z')` —
whose argument parses, after the `Z` replacement, to the instant 100
microseconds before the epoch — evaluates to the integer `0`, while the
floor of its epoch milliseconds is `-1`: Python's `int()` truncates
toward zero, it does not floor.  (At this instant the embedding is
float-faithful: the double for `-0.0001` seconds times 1000 is within
`10^-17` of `-0.1`, so the original's `int()` also yields `0`.) -/
theorem c3_counterexample :
    eval_expr 0 (String.toList "fromDateTime('1969-12-31T23:59:59.999900Z')")
      (Json.obj []) = Json.int 0
  ∧ pyFromIsoformat (zNormalize (String.toList "1969-12-31T23:59:59.999900Z")) =
      some ⟨1969, 12, 31, 23, 59, 59, 999900, some 0⟩
  ∧ Int.fdiv (pyTimestampMicros 0 ⟨1969, 12, 31, 23, 59, 59, 999900, some 0⟩) 1000 = -1
  ∧ (0 : Int) ≠ -1 :=
  ⟨rfl, rfl, rfl, by decide⟩

/-- C3 (amended): whenever the first argument of `fromDateTime`
evaluates to a string that, after a trailing `Z` is replaced by
`+00:00`, parses as an ISO-8601 date-time denoting a whole-second
instant (no fractional second in the time or in the offset — the only
instants the specification exercises), with the local offset a
real-world UTC offset (magnitude at most 26 hours; it is unused for
offset-carrying instants), the result is exactly
`seconds_since_epoch * 1000`, which coincides with the claimed
`floor(seconds_since_epoch * 1000)`; in particular
`fromDateTime('2024-01-01T00:00:00Z', 'yyyy-MM-dd')` evaluates to
`1704067200000`.  On this domain the double pipeline of
`int(dt.timestamp() * 1000)` is exact (see `pyTimestampMicros`), so the
integer embedding is faithful.  Off the whole-second grid the program
truncates toward zero through doubles, deviating from the claimed floor
both before the epoch (see the counterexample) and, through double
rounding, far from it. -/
theorem c3_amended_fromDateTime_epoch_millis :
    (∀ (off : Int) (expr raw a s : List Char) (rest : List (List Char))
        (dt : PyDateTime) (doc : Json),
      pyFuncMatch (pyStrip expr) = some (String.toList "fromDateTime", raw) →
      split_top_level_args raw = a :: rest →
      eval_expr off a doc = Json.str s →
      pyFromIsoformat (zNormalize s) = some dt →
      (1000000 : Int) ∣ pyTimestampMicros off dt →
      off.natAbs ≤ 93600 →
      eval_expr off expr doc = Json.int (Int.tdiv (pyTimestampMicros off dt) 1000) ∧
        Int.tdiv (pyTimestampMicros off dt) 1000 =
          Int.fdiv (pyTimestampMicros off dt) 1000000 * 1000 ∧
        Int.tdiv (pyTimestampMicros off dt) 1000 =
          Int.fdiv (pyTimestampMicros off dt) 1000)
  ∧ (∀ off : Int,
      eval_expr off (String.toList "fromDateTime('2024-01-01T00:00:00Z', 'yyyy-MM-dd')")
        (Json.obj []) = Json.int 1704067200000) := by
  refine ⟨fun off expr raw a s rest dt doc hM hsplit hv hparse hsec hoff => ?_,
    fun off => rfl⟩
  obtain ⟨k, hk⟩ := hsec
  refine ⟨?_, ?_, ?_⟩
  · rw [eval_expr_unfold, evalBody_match_some off _ doc hM, dispatch_fromDateTime, hsplit]
    simp only [fromDateTimeBranch]
    rw [hv]
    show (match pyFromIsoformat (zNormalize s) with
      | some dt => Json.int (Int.tdiv (pyTimestampMicros off dt) 1000)
      | none => Json.null) = _
    rw [hparse]
  · rw [hk]
    have h1 : (1000000 : Int) * k = 1000 * (1000 * k) := by ring
    rw [h1, Int.mul_tdiv_cancel_left _ (by norm_num)]
    have h2 : (1000 : Int) * (1000 * k) = 1000000 * k := by ring
    rw [h2, Int.mul_fdiv_cancel_left _ (by norm_num)]
    ring
  · rw [hk]
    have h1 : (1000000 : Int) * k = 1000 * (1000 * k) := by ring
    rw [h1, Int.mul_tdiv_cancel_left _ (by norm_num),
      Int.mul_fdiv_cancel_left _ (by norm_num)]

/-- Witness for C3 (amended) at the specification's example, a
whole-second aware instant. -/
theorem c3_amended_fromDateTime_epoch_millis_witness :
    pyFuncMatch (pyStrip (String.toList "fromDateTime('2024-01-01T00:00:00Z', 'yyyy-MM-dd')")) =
      some (String.toList "fromDateTime", String.toList "'2024-01-01T00:00:00Z', 'yyyy-MM-dd'") ∧
    eval_expr 0 (String.toList "'2024-01-01T00:00:00Z'") (Json.obj []) =
      Json.str (String.toList "2024-01-01T00:00:00Z") ∧
    pyFromIsoformat (zNormalize (String.toList "2024-01-01T00:00:00Z")) =
      some ⟨2024, 1, 1, 0, 0, 0, 0, some 0⟩ ∧
    (1000000 : Int) ∣ pyTimestampMicros 0 ⟨2024, 1, 1, 0, 0, 0, 0, some 0⟩ ∧
    eval_expr 0 (String.toList "fromDateTime('2024-01-01T00:00:00Z', 'yyyy-MM-dd')")
        (Json.obj []) =
      Json.int (Int.tdiv (pyTimestampMicros 0 ⟨2024, 1, 1, 0, 0, 0, 0, some 0⟩) 1000) ∧
    Int.tdiv (pyTimestampMicros 0 ⟨2024, 1, 1, 0, 0, 0, 0, some 0⟩) 1000 =
      Int.fdiv (pyTimestampMicros 0 ⟨2024, 1, 1, 0, 0, 0, 0, some 0⟩) 1000 ∧
    Int.tdiv (pyTimestampMicros 0 ⟨2024, 1, 1, 0, 0, 0, 0, some 0⟩) 1000 =
      1704067200000 :=
  ⟨rfl, rfl, rfl, ⟨1704067200, rfl⟩,
   (c3_amended_fromDateTime_epoch_millis.1 0
      (String.toList "fromDateTime('2024-01-01T00:00:00Z', 'yyyy-MM-dd')")
      (String.toList "'2024-01-01T00:00:00Z', 'yyyy-MM-dd'")
      (String.toList "'2024-01-01T00:00:00Z'") (String.toList "2024-01-01T00:00:00Z")
      [String.toList "'yyyy-MM-dd'"] ⟨2024, 1, 1, 0, 0, 0, 0, some 0⟩ (Json.obj [])
      rfl rfl rfl rfl ⟨1704067200, rfl⟩ (by decide)).1,
   (c3_amended_fromDateTime_epoch_millis.1 0
      (String.toList "fromDateTime('2024-01-01T00:00:00Z', 'yyyy-MM-dd')")
      (String.toList "'2024-01-01T00:00:00Z', 'yyyy-MM-dd'")
      (String.toList "'2024-01-01T00:00:00Z'") (String.toList "2024-01-01T00:00:00Z")
      [String.toList "'yyyy-MM-dd'"] ⟨2024, 1, 1, 0, 0, 0, 0, some 0⟩ (Json.obj [])
      rfl rfl rfl rfl ⟨1704067200, rfl⟩ (by decide)).2.2,
   rfl⟩

/-- C10: a well-formed ISO-8601 string carrying no UTC offset parses as
a naive datetime rather than failing to null, and the result then
depends on the environment's local time zone: modelling the local zone
as a fixed offset `off` in seconds east of UTC,
`fromDateTime('2024-01-01T00:00:00')` evaluates to the non-null integer
`(1704067200 - off) * 1000` for every `off`. -/
theorem c10_naive_datetime_local_zone :
    pyFromIsoformat (String.toList "2024-01-01T00:00:00") =
      some ⟨2024, 1, 1, 0, 0, 0, 0, none⟩
  ∧ (∀ off : Int,
      eval_expr off (String.toList "fromDateTime('2024-01-01T00:00:00')") (Json.obj []) =
        Json.int ((1704067200 - off) * 1000)) := by
  refine ⟨rfl, fun off => ?_⟩
  have h : eval_expr off (String.toList "fromDateTime('2024-01-01T00:00:00')")
      (Json.obj []) =
      Json.int (Int.tdiv ((1704067200000000 : Int) - off * 1000000) 1000) := rfl
  rw [h]
  have h2 : (1704067200000000 : Int) - off * 1000000 =
      ((1704067200 - off) * 1000) * 1000 := by ring
  rw [h2, Int.mul_tdiv_cancel _ (by norm_num)]
